import Mathlib

/-!
Verification development for the gym Discord bot's planning core.

The definitions below are a shallow embedding of the TypeScript sources:
`src/features/planning/planningManager.ts` (channel reconciler),
the trash-reminder service's `getUsersFromPlanning` (reminder correlator),
`src/features/status/gymStatusManager.ts` together with its compiled
variant (status message refresh), the rules service's `handleAcceptRules`,
and `parseNumericEnv` from `src/config/env.ts`.

Dates are modelled as a count of days since 1970-01-01 (what a JavaScript
`Date` normalised to local midnight denotes, up to timezone offset, with
`setDate(getDate() + i)` adding `i` days).  The call
`toLocaleDateString('fr-FR', { weekday: 'long', day: 'numeric', month: 'long' })`
is a platform library call; it is embedded as `frDateRender`, the
ECMA-402 fr-FR rendering "weekday day month" with long lower-case French
weekday and month names and a numeric day of month, computed by the
standard proleptic-Gregorian civil-from-days conversion.
-/

namespace GymBot

/-- Long French weekday names indexed by JavaScript `Date.getDay()`
(0 = dimanche, ..., 6 = samedi). -/
def frWeekdays : List String :=
  ["dimanche", "lundi", "mardi", "mercredi", "jeudi", "vendredi", "samedi"]

/-- Long French month names indexed by month number minus one (1 = janvier). -/
def frMonths : List String :=
  ["janvier", "février", "mars", "avril", "mai", "juin", "juillet",
   "août", "septembre", "octobre", "novembre", "décembre"]

/-- Civil date (year, month 1–12, day of month) of day number `z`
(days since 1970-01-01), by the standard Gregorian conversion. -/
def civilFromDays (z : Nat) : Nat × Nat × Nat :=
  let zz := z + 719468
  let era := zz / 146097
  let doe := zz % 146097
  let yoe := (doe - doe / 1460 + doe / 36524 - doe / 146097) / 365
  let y := yoe + era * 400
  let doy := doe - (365 * yoe + yoe / 4 - yoe / 100)
  let mp := (5 * doy + 2) / 153
  let d := doy - (153 * mp + 2) / 5 + 1
  let m := if mp < 10 then mp + 3 else mp - 9
  (if m ≤ 2 then y + 1 else y, m, d)

/-- JavaScript `Date.getDay()` for day number `z`: 0 = Sunday.
1970-01-01 was a Thursday (= 4). -/
def jsGetDay (z : Nat) : Nat := (z + 4) % 7

/-- Embedding of
`date.toLocaleDateString('fr-FR', { weekday: 'long', day: 'numeric', month: 'long' })`
for the date with day number `z`: "weekday day month", e.g. "jeudi 1 janvier". -/
def frDateRender (z : Nat) : String :=
  let c := civilFromDays z
  frWeekdays.getD (jsGetDay z) "" ++ " " ++ toString c.2.2 ++ " "
    ++ frMonths.getD (c.2.1 - 1) ""

/-- Embedding of JavaScript `String.prototype.toLowerCase` (simple
character-wise lower-casing; the French names involved are already
lower-case, and the digits are unaffected). -/
def jsToLower (s : String) : String := String.mk (s.data.map Char.toLower)

/-- The `dayLabel` computed by `syncPlanning` and `getUsersFromPlanning`:
the fr-FR rendering of the date, lower-cased (`.toLowerCase()`). -/
def dayLabel (z : Nat) : String := jsToLower (frDateRender z)

/-- Character class of the JavaScript regular-expression escape `\s`. -/
def jsWhitespace (c : Char) : Bool :=
  let n := c.toNat
  n == 0x20 || n == 0x09 || n == 0x0a || n == 0x0d || n == 0x0b || n == 0x0c ||
  n == 0xa0 || n == 0x1680 || (0x2000 ≤ n && n ≤ 0x200a) ||
  n == 0x2028 || n == 0x2029 || n == 0x202f || n == 0x205f ||
  n == 0x3000 || n == 0xfeff

/-- Replace every maximal run of `\s` characters by a single hyphen.
The flag records whether the previous character belonged to a run. -/
def replaceWsRuns : Bool → List Char → List Char
  | _, [] => []
  | prevWs, c :: rest =>
    if jsWhitespace c then
      if prevWs then replaceWsRuns true rest
      else '-' :: replaceWsRuns true rest
    else c :: replaceWsRuns false rest

/-- Embedding of `label.replace(/\s+/g, '-')`. -/
def slugify (s : String) : String := String.mk (replaceWsRuns false s.data)

/-- One entry of the planning window: the day label and the channel-name slug. -/
structure WindowEntry where
  label : String
  slug : String
  deriving DecidableEq, Repr

/-- The desired planning window: the loop of `syncPlanning` that builds
`desiredChannels`, for offsets `i = 0, ..., n - 1` from `today`. -/
def planningWindow (today : Nat) (n : Nat) : List WindowEntry :=
  (List.range n).map (fun i =>
    let lbl := dayLabel (today + i)
    { label := lbl, slug := slugify lbl })

/-- Discord channel kinds relevant to the bot (`ChannelType.GuildText`,
`ChannelType.GuildCategory`, anything else). -/
inductive ChannelType where
  | text
  | category
  | other
  deriving DecidableEq, Repr

/-- A channel of the guild cache: id, name, parent category id, kind. -/
structure Channel where
  id : Nat
  name : String
  parentId : Option Nat
  ctype : ChannelType
  deriving DecidableEq, Repr

/-- The guild's channel cache plus the id the next created channel receives. -/
structure GuildState where
  channels : List Channel
  nextId : Nat
  deriving DecidableEq, Repr

/-- One side-effecting channel operation issued by `syncPlanning`. -/
inductive SyncEvent where
  | chanDelete (id : Nat) (name : String)
  | chanCreate (id : Nat) (name : String)
  deriving DecidableEq, Repr

/-- Whether `e` is a deletion. -/
def SyncEvent.isDeletion : SyncEvent → Bool
  | .chanDelete _ _ => true
  | .chanCreate _ _ => false

/-- Whether `e` is a creation. -/
def SyncEvent.isCreation : SyncEvent → Bool
  | .chanDelete _ _ => false
  | .chanCreate _ _ => true

/-- The filter of `syncPlanning` selecting the text channels whose parent is
the planning category:
`channel.parentId === category.id && channel.type === ChannelType.GuildText`. -/
def isTextUnder (catId : Nat) (c : Channel) : Bool :=
  c.parentId == some catId && c.ctype == ChannelType.text

/-- The lookup predicate of the creation loop of `syncPlanning`:
`channel.name === channelName && channel.parentId === category.id &&
channel.type === ChannelType.GuildText`. -/
def channelMatches (cname : String) (catId : Nat) (c : Channel) : Bool :=
  c.name == cname && c.parentId == some catId && c.ctype == ChannelType.text

/-- Names of the text channels under category `catId`. -/
def textNamesUnder (g : GuildState) (catId : Nat) : List String :=
  (g.channels.filter (isTextUnder catId)).map (fun c => c.name)

/-- The deletion loop of `syncPlanning`: iterate over the snapshot of text
channels under the category, deleting each whose name is not allowed.
Assumes every deletion succeeds (the claims under study assume no
operation fails). -/
def deleteLoop (allowed : List String) : List Channel → GuildState → GuildState × List SyncEvent
  | [], g => (g, [])
  | c :: rest, g =>
    if allowed.contains c.name then
      deleteLoop allowed rest g
    else
      let g' : GuildState :=
        { g with channels := g.channels.filter (fun ch => !(ch.id == c.id)) }
      let res := deleteLoop allowed rest g'
      (res.1, SyncEvent.chanDelete c.id c.name :: res.2)

/-- The channel object created by `guild.channels.create({name, type: GuildText,
parent: category})` when it receives id `nid`. -/
def newChan (catId : Nat) (cname : String) (nid : Nat) : Channel :=
  { id := nid, name := cname, parentId := some catId, ctype := ChannelType.text }

/-- The creation loop of `syncPlanning`: for each desired `(name, label)` pair,
skip it when a matching text channel exists in the (live) cache, otherwise
create a text channel with that name under the category.  Assumes every
creation succeeds. -/
def createLoop (catId : Nat) : List (String × String) → GuildState → GuildState × List SyncEvent
  | [], g => (g, [])
  | (cname, _lbl) :: rest, g =>
    match g.channels.find? (channelMatches cname catId) with
    | some _ => createLoop catId rest g
    | none =>
      let newC : Channel := newChan catId cname g.nextId
      let g' : GuildState := { channels := g.channels ++ [newC], nextId := g.nextId + 1 }
      let res := createLoop catId rest g'
      (res.1, SyncEvent.chanCreate newC.id cname :: res.2)

/-- The `desiredChannels` array of `syncPlanning` as `(name, label)` pairs.
`daysAhead` is the configured number (an `Int`, since the config loader
accepts any finite numeric value); the loop `for (let i = 0; i < daysAhead)`
runs `daysAhead.toNat` times. -/
def desiredPairs (today : Nat) (daysAhead : Int) : List (String × String) :=
  (planningWindow today daysAhead.toNat).map (fun e => (e.slug, e.label))

/-- The `allowedNames` set of `syncPlanning` (as the list of desired names;
membership is what the code queries). -/
def allowedNames (today : Nat) (daysAhead : Int) : List String :=
  (desiredPairs today daysAhead).map Prod.fst

/-- Embedding of `PlanningManager.syncPlanning`: compute the desired window,
delete the out-of-window text channels under the category, then create the
missing desired channels.  Returns the new guild state and the trace of
channel operations in issuance order. -/
def syncPlanning (g : GuildState) (catId : Nat) (today : Nat) (daysAhead : Int) :
    GuildState × List SyncEvent :=
  let desired := desiredPairs today daysAhead
  let allowed := allowedNames today daysAhead
  let snapshot := g.channels.filter (isTextUnder catId)
  let res1 := deleteLoop allowed snapshot g
  let res2 := createLoop catId desired res1.1
  (res2.1, res1.2 ++ res2.2)

/-- Embedding of `parseNumericEnv` from `src/config/env.ts`.  The argument
stands for the environment variable: `none` when undefined, `some none`
when `Number(raw)` is not finite, `some (some k)` when it is the finite
number `k`. -/
def parseNumericEnv (value : Option (Option Int)) (defaultValue : Int) : Int :=
  match value with
  | none => defaultValue
  | some none => defaultValue
  | some (some k) => k

/-- A user as seen on a reaction: id, display name, bot flag. -/
structure RUser where
  id : String
  username : String
  bot : Bool
  deriving DecidableEq, Repr

/-- One reaction entry of a message: the emoji key and the users who reacted. -/
structure MsgReaction where
  emoji : String
  users : List RUser
  deriving DecidableEq, Repr

/-- A message of a planning channel: body text and reaction entries. -/
structure RMessage where
  id : String
  content : String
  reactions : List MsgReaction
  deriving DecidableEq, Repr

/-- The affirmative reaction emoji the bot seeds and later looks up. -/
def checkEmoji : String := "✅"

/-- Embedding of `usersSet.add(id)` on a JavaScript `Set` kept as its
insertion-ordered element list. -/
def insertSet (s : List String) (x : String) : List String :=
  if x ∈ s then s else s ++ [x]

/-- The inner loop of `getUsersFromPlanning` over the users who reacted on
one slot message: `if (!user.bot) usersSet.add(user.id)`. -/
def addReactors : List RUser → List String → List String
  | [], acc => acc
  | u :: rest, acc =>
    addReactors rest (if u.bot then acc else insertSet acc u.id)

/-- Locating the reactors of one time slot: find the message whose body
equals the slot string, then its `✅` reaction entry; `none` when either
lookup fails (both are logged, non-fatal skips in the code). -/
def slotReactors (messages : List RMessage) (slot : String) : Option (List RUser) :=
  match messages.find? (fun m => m.content == slot) with
  | none => none
  | some msg =>
    match msg.reactions.find? (fun r => r.emoji == checkEmoji) with
    | none => none
    | some r => some r.users

/-- The loop of `getUsersFromPlanning` over the configured time slots,
accumulating the `usersSet`. -/
def collectGo (messages : List RMessage) : List String → List String → List String
  | [], acc => acc
  | slot :: rest, acc =>
    match slotReactors messages slot with
    | none => collectGo messages rest acc
    | some us => collectGo messages rest (addReactors us acc)

/-- The `usersSet` built by `getUsersFromPlanning` for the fetched messages
and the configured time slots. -/
def collectSlotUsers (messages : List RMessage) (timeSlots : List String) : List String :=
  collectGo messages timeSlots []

/-- The category lookup of `getUsersFromPlanning`:
`channel.type === GuildCategory && channel.name === config.planning.categoryName`. -/
def isCategoryNamed (categoryName : String) (c : Channel) : Bool :=
  c.ctype == ChannelType.category && c.name == categoryName

/-- The planning-channel lookup of `getUsersFromPlanning`:
`channel.parentId === planningCategory.id && channel.type === GuildText &&
channel.name === channelName`. -/
def channelMatchesUnder (catId : Nat) (cname : String) (c : Channel) : Bool :=
  c.parentId == some catId && c.ctype == ChannelType.text && c.name == cname

/-- Result of the reminder correlator: the returned user ids (wrapped in
`Except`, `.error` standing for an exception raised to the caller — the
function never does) and the log lines it emits outside the per-slot loop. -/
structure CorrelatorOutput where
  result : Except String (List String)
  logs : List String
  deriving Repr

/-- Embedding of `TrashReminderService.getUsersFromPlanning`.  `channels` is
the guild channel cache, `today` the current date, `dayOfWeek` the
reminder rule's configured weekday (used only in a log line),
`fetchMessages` the message fetch for a channel id, and `fetchOk` tells
which user ids `client.users.fetch` resolves (failed fetches are skipped
with a warning).  Per-message info logging inside the slot loop is not
modelled. -/
def getUsersFromPlanning (channels : List Channel) (categoryName : String)
    (today : Nat) (dayOfWeek : Int) (timeSlots : List String)
    (fetchMessages : Nat → List RMessage) (fetchOk : String → Bool) :
    CorrelatorOutput :=
  let channelName := slugify (dayLabel today)
  let wd := jsGetDay today
  let log0 :=
    "Recherche du channel de planning: " ++ channelName ++ " (jour actuel: "
      ++ toString wd ++ ", jour cible config: " ++ toString dayOfWeek ++ ")"
  match channels.find? (isCategoryNamed categoryName) with
  | none =>
    { result := Except.ok [],
      logs := [log0, "Catégorie de planning introuvable: " ++ categoryName] }
  | some cat =>
    match channels.find? (channelMatchesUnder cat.id channelName) with
    | none =>
      { result := Except.ok [],
        logs := [log0, "Channel de planning introuvable: " ++ channelName] }
    | some ch =>
      let ids := collectSlotUsers (fetchMessages ch.id) timeSlots
      { result := Except.ok (ids.filter fetchOk),
        logs := [log0, "Channel de planning trouvé: " ++ channelName] }

/-- Gym status values (`'Ouverte' | 'Fermée'`). -/
inductive GymStatusV where
  | ouverte
  | fermee
  deriving DecidableEq, Repr

/-- Textual form used in the status embed. -/
def statusText : GymStatusV → String
  | .ouverte => "Ouverte"
  | .fermee => "Fermée"

/-- The rendered status message: the embed fields built by `buildEmbed` and
the disabled flags of the two status buttons built by `buildActionRow`
(the gate button is unconditional). -/
structure StatusPayload where
  title : String
  description : String
  color : Nat
  image : String
  openDisabled : Bool
  closeDisabled : Bool
  deriving DecidableEq, Repr

/-- In-memory state of `GymStatusManager`: current status, last actor, and
the id of the tracked status message (if published). -/
structure ManagerState where
  status : GymStatusV
  lastActionBy : Option String
  statusMessage : Option Nat
  deriving DecidableEq, Repr

/-- The messages of the status channel, each `(id, rendered payload)`, plus
the id the next sent message receives. -/
structure StatusChannel where
  messages : List (Nat × StatusPayload)
  nextId : Nat
  deriving DecidableEq, Repr

/-- Embedding of `buildEmbed` plus the disabled flags of `buildActionRow`.
`images` maps each status to its configured image URL. -/
def buildPayload (images : GymStatusV → String) (st : ManagerState) : StatusPayload :=
  let lastAction := st.lastActionBy.getD "N/A"
  let stTxt := statusText st.status
  { title := "Statut de la salle de sport",
    description :=
      "La salle de sport est actuellement **" ++ stTxt
        ++ "**.\n\nDernière action par : **" ++ lastAction ++ "**",
    color := if st.status = GymStatusV.ouverte then 0x00ff00 else 0xff0000,
    image := images st.status,
    openDisabled := st.status = GymStatusV.ouverte,
    closeDisabled := st.status = GymStatusV.fermee }

/-- Embedding of `refreshStatusMessage` as written in the TypeScript source
`gymStatusManager.ts`: if a status message is tracked, edit it in place
with the current rendering; the tracked message id does not change.
Assumes the edit succeeds (a failure is caught and logged). -/
def refreshStatusMessageSrc (images : GymStatusV → String) (st : ManagerState)
    (ch : StatusChannel) : ManagerState × StatusChannel :=
  match st.statusMessage with
  | none => (st, ch)
  | some mid =>
    (st,
     { ch with
       messages := ch.messages.map (fun m =>
         if m.1 == mid then (m.1, buildPayload images st) else m) })

/-- Embedding of `refreshStatusMessage` as found in the compiled variant
`dist/.../gymStatusManager.js`: if a status message is tracked, delete it
(best effort), send a new status message, and track the new one.
Assumes both operations succeed. -/
def refreshStatusMessageDist (images : GymStatusV → String) (st : ManagerState)
    (ch : StatusChannel) : ManagerState × StatusChannel :=
  match st.statusMessage with
  | none => (st, ch)
  | some mid =>
    let ch1 : StatusChannel :=
      { ch with messages := ch.messages.filter (fun m => !(m.1 == mid)) }
    let newId := ch1.nextId
    let ch2 : StatusChannel :=
      { messages := ch1.messages ++ [(newId, buildPayload images st)],
        nextId := ch1.nextId + 1 }
    ({ st with statusMessage := some newId }, ch2)

/-- Outcome of the awaited `guild.members.fetch` + `member.roles.add` pair in
`handleAcceptRules`: either both succeed or the `try` block throws. -/
inductive GrantOutcome where
  | success
  | failure
  deriving DecidableEq, Repr

/-- Inputs of one `handleAcceptRules` invocation. -/
structure AcceptInput where
  hasGuild : Bool
  guildRoles : List String
  username : String
  grantOutcome : GrantOutcome
  deriving Repr

/-- What one `handleAcceptRules` invocation did: the reply shown to the
requester, whether the role was granted, and whether a line was appended
to the acceptance log. -/
structure AcceptResult where
  reply : Option String
  roleGranted : Bool
  logAppended : Bool
  deriving DecidableEq, Repr

/-- Embedding of `RulesService.findRole`: first role whose name equals the
configured member role name. -/
def findRole (roles : List String) (memberRoleName : String) : Option String :=
  roles.find? (fun r => r == memberRoleName)

/-- Embedding of `RulesService.handleAcceptRules`.  The role grant and the
log append are in one `try` block, with `logSignature` called after
`roles.add` succeeded (`logSignature` catches its own append errors, so
`logAppended` records that the append was issued). -/
def handleAcceptRules (memberRoleName : String) (inp : AcceptInput) : AcceptResult :=
  if !inp.hasGuild then
    { reply := some "Impossible de déterminer la guilde pour appliquer le rôle.",
      roleGranted := false, logAppended := false }
  else
    match findRole inp.guildRoles memberRoleName with
    | none =>
      { reply :=
          some ("Le rôle \"" ++ memberRoleName
            ++ "\" est introuvable. Contactez un administrateur."),
        roleGranted := false, logAppended := false }
    | some role =>
      match inp.grantOutcome with
      | GrantOutcome.failure =>
        { reply :=
            some "Une erreur est survenue lors de l’ajout du rôle. Contactez un administrateur.",
          roleGranted := false, logAppended := false }
      | GrantOutcome.success =>
        { reply :=
            some ("Merci, " ++ inp.username
              ++ ", vous avez accepté le règlement et obtenu le rôle **" ++ role ++ "**."),
          roleGranted := true, logAppended := true }

/-- A small concrete guild used to instantiate the reconciler theorems:
the planning category (id 1), one stale planning channel, one current
planning channel, and an unrelated text channel under another parent.
Day number 0 is 1970-01-01, "jeudi 1 janvier". -/
def demoGuild : GuildState :=
  { channels :=
      [{ id := 1, name := "Planning", parentId := none, ctype := ChannelType.category },
       { id := 2, name := "mercredi-31-décembre", parentId := some 1, ctype := ChannelType.text },
       { id := 3, name := "vendredi-2-janvier", parentId := some 1, ctype := ChannelType.text },
       { id := 4, name := "general", parentId := some 9, ctype := ChannelType.text }],
    nextId := 10 }

/-- The relevant evening time slots of the reminder rules. -/
def demoSlots : List String := ["18:00 - 20:00", "20:00 - 22:00", "22:00 - 00:00"]

/-- Concrete planning-channel messages: alice reacted on two slots (dedup),
a bot account reacted on the first slot (exclusion), bob on the second. -/
def demoMessages : List RMessage :=
  [{ id := "m1", content := "18:00 - 20:00",
     reactions := [{ emoji := "✅",
                     users := [{ id := "alice", username := "alice", bot := false },
                               { id := "botacct", username := "gym-bot", bot := true }] }] },
   { id := "m2", content := "20:00 - 22:00",
     reactions := [{ emoji := "✅",
                     users := [{ id := "alice", username := "alice", bot := false },
                               { id := "bob", username := "bob", bot := false }] }] },
   { id := "m3", content := "22:00 - 00:00",
     reactions := [{ emoji := "✅", users := [] }] }]

/-- Concrete channel cache for the correlator: the planning category and
today's planning channel for day number 0. -/
def demoChannels : List Channel :=
  [{ id := 1, name := "Planning", parentId := none, ctype := ChannelType.category },
   { id := 2, name := "jeudi-1-janvier", parentId := some 1, ctype := ChannelType.text }]

/-- Constant image configuration for the status demos. -/
def demoImages : GymStatusV → String := fun _ => "https://example.invalid/img.png"

/-- A status-manager state tracking message 5. -/
def demoStState : ManagerState :=
  { status := GymStatusV.fermee, lastActionBy := some "Alice", statusMessage := some 5 }

/-- A status channel holding the tracked message 5 (rendered from an older
state) with next message id 6. -/
def demoStChannel : StatusChannel :=
  { messages := [(5, buildPayload demoImages
      { status := GymStatusV.ouverte, lastActionBy := none, statusMessage := some 5 })],
    nextId := 6 }

/-! ### Helper lemmas -/

theorem contains_iff_mem_str (l : List String) (a : String) :
    l.contains a = true ↔ a ∈ l := by
  simp

/-- C3: for a fixed `today` and window size `n`, the planning-window
computation is a pure function yielding a fully determined sequence of
`n` entries; the entry at offset `i` has the fr-FR weekday+day+month
rendering of `today + i` lower-cased as its label, and that label with
every run of whitespace replaced by a hyphen as its slug. -/
theorem planningWindow_pure (today n : Nat) :
    (planningWindow today n).length = n ∧
    ∀ i, i < n →
      (planningWindow today n)[i]? =
        some { label := jsToLower (frDateRender (today + i)),
               slug := slugify (jsToLower (frDateRender (today + i))) } := by
  constructor
  · simp [planningWindow]
  · intro i hi
    simp [planningWindow, List.getElem?_map, List.getElem?_range, hi, dayLabel]

theorem channelMatches_iff (cname : String) (catId : Nat) (c : Channel) :
    channelMatches cname catId c = true ↔ (c.name = cname ∧ isTextUnder catId c = true) := by
  simp [channelMatches, isTextUnder, and_assoc]

theorem deleteLoop_events (allowed : List String) (snapshot : List Channel) :
    ∀ g : GuildState,
      (deleteLoop allowed snapshot g).2 =
        (snapshot.filter (fun c => !(allowed.contains c.name))).map
          (fun c => SyncEvent.chanDelete c.id c.name) := by
  induction snapshot with
  | nil => intro g; simp [deleteLoop]
  | cons c rest ih =>
    intro g
    by_cases h : c.name ∈ allowed
    · simp [deleteLoop, h, ih]
    · simp [deleteLoop, h, ih]

theorem deleteLoop_deletions (allowed : List String) (snapshot : List Channel)
    (g : GuildState) :
    ∀ e ∈ (deleteLoop allowed snapshot g).2, e.isDeletion = true := by
  intro e he
  rw [deleteLoop_events] at he
  obtain ⟨c, _, rfl⟩ := List.mem_map.mp he
  rfl

theorem deleteLoop_mem (allowed : List String) (snapshot : List Channel) :
    ∀ g : GuildState, snapshot.Nodup →
      (∀ c ∈ snapshot, c ∈ g.channels) →
      (g.channels.map (fun c => c.id)).Nodup →
      ∀ x, x ∈ (deleteLoop allowed snapshot g).1.channels ↔
        (x ∈ g.channels ∧ (x ∈ snapshot → x.name ∈ allowed)) := by
  induction snapshot with
  | nil => intro g _ _ _ x; simp [deleteLoop]
  | cons c rest ih =>
    intro g hnd hsub hids x
    have hcr : c ∉ rest := (List.nodup_cons.mp hnd).1
    have hndr : rest.Nodup := (List.nodup_cons.mp hnd).2
    have hcg : c ∈ g.channels := hsub c (List.mem_cons_self _ _)
    by_cases h : c.name ∈ allowed
    · have hstep : deleteLoop allowed (c :: rest) g = deleteLoop allowed rest g := by
        simp [deleteLoop, h]
      rw [hstep, ih g hndr (fun d hd => hsub d (List.mem_cons_of_mem c hd)) hids x]
      constructor
      · rintro ⟨hx, himp⟩
        refine ⟨hx, fun hmem => ?_⟩
        rcases List.mem_cons.mp hmem with rfl | hmem'
        · exact h
        · exact himp hmem'
      · rintro ⟨hx, himp⟩
        exact ⟨hx, fun hmem => himp (List.mem_cons_of_mem c hmem)⟩
    · have hinj := List.inj_on_of_nodup_map hids
      have hstep : (deleteLoop allowed (c :: rest) g).1 =
          (deleteLoop allowed rest
            { g with channels := g.channels.filter (fun ch => !(ch.id == c.id)) }).1 := by
        simp [deleteLoop, h]
      set g' : GuildState :=
        { g with channels := g.channels.filter (fun ch => !(ch.id == c.id)) } with hg'
      have hmem' : ∀ y, y ∈ g'.channels ↔ (y ∈ g.channels ∧ y.id ≠ c.id) := by
        intro y
        simp [hg', List.mem_filter]
      have hsub' : ∀ d ∈ rest, d ∈ g'.channels := by
        intro d hd
        refine (hmem' d).mpr ⟨hsub d (List.mem_cons_of_mem c hd), fun hdc => ?_⟩
        have : d = c := hinj (hsub d (List.mem_cons_of_mem c hd)) hcg hdc
        exact hcr (this ▸ hd)
      have hids' : (g'.channels.map (fun ch => ch.id)).Nodup := by
        refine hids.sublist ?_
        exact (List.filter_sublist g.channels).map (fun ch => ch.id)
      rw [hstep, ih g' hndr hsub' hids' x]
      constructor
      · rintro ⟨hx, himp⟩
        obtain ⟨hxg, hxid⟩ := (hmem' x).mp hx
        refine ⟨hxg, fun hmem => ?_⟩
        rcases List.mem_cons.mp hmem with rfl | hmem'
        · exact absurd rfl hxid
        · exact himp hmem'
      · rintro ⟨hx, himp⟩
        have hxid : x.id ≠ c.id := by
          intro hxc
          have hxeq : x = c := hinj hx hcg hxc
          subst hxeq
          exact h (himp (List.mem_cons_self _ _))
        exact ⟨(hmem' x).mpr ⟨hx, hxid⟩, fun hmem => himp (List.mem_cons_of_mem c hmem)⟩

theorem deleteLoop_noop (allowed : List String) (snapshot : List Channel) :
    ∀ g : GuildState, (∀ c ∈ snapshot, c.name ∈ allowed) →
      deleteLoop allowed snapshot g = (g, []) := by
  induction snapshot with
  | nil => intro g _; rfl
  | cons c rest ih =>
    intro g hall
    have hc : c.name ∈ allowed := hall c (List.mem_cons_self _ _)
    simp [deleteLoop, hc, ih g (fun d hd => hall d (List.mem_cons_of_mem c hd))]

theorem createLoop_creations (catId : Nat) (desired : List (String × String)) :
    ∀ g : GuildState, ∀ e ∈ (createLoop catId desired g).2, e.isCreation = true := by
  induction desired with
  | nil => intro g e he; simp [createLoop] at he
  | cons p rest ih =>
    obtain ⟨cname, lbl⟩ := p
    intro g e he
    cases hf : g.channels.find? (channelMatches cname catId) with
    | some c0 =>
      rw [show (createLoop catId ((cname, lbl) :: rest) g).2 = (createLoop catId rest g).2 by
        simp [createLoop, hf]] at he
      exact ih g e he
    | none =>
      rw [show (createLoop catId ((cname, lbl) :: rest) g).2 =
          SyncEvent.chanCreate (newChan catId cname g.nextId).id cname ::
            (createLoop catId rest
              { channels := g.channels ++ [newChan catId cname g.nextId],
                nextId := g.nextId + 1 }).2 by
        simp [createLoop, hf]] at he
      rcases List.mem_cons.mp he with rfl | he'
      · rfl
      · exact ih _ e he'

theorem createLoop_mem_names (catId : Nat) (desired : List (String × String)) :
    ∀ (g : GuildState) (name : String),
      (∃ c ∈ (createLoop catId desired g).1.channels, isTextUnder catId c = true ∧ c.name = name)
      ↔ (name ∈ desired.map Prod.fst ∨
         ∃ c ∈ g.channels, isTextUnder catId c = true ∧ c.name = name) := by
  induction desired with
  | nil => intro g name; simp [createLoop]
  | cons p rest ih =>
    obtain ⟨cname, lbl⟩ := p
    intro g name
    cases hf : g.channels.find? (channelMatches cname catId) with
    | some c0 =>
      have hc0mem : c0 ∈ g.channels := List.mem_of_find?_eq_some hf
      have hc0p := (channelMatches_iff cname catId c0).mp (List.find?_some hf)
      have hstep : (createLoop catId ((cname, lbl) :: rest) g).1 = (createLoop catId rest g).1 := by
        simp [createLoop, hf]
      rw [hstep, ih g name]
      simp only [List.map_cons, List.mem_cons]
      constructor
      · rintro (h | h)
        · exact Or.inl (Or.inr h)
        · exact Or.inr h
      · rintro (h | h)
        · rcases h with rfl | h
          · exact Or.inr ⟨c0, hc0mem, hc0p.2, hc0p.1⟩
          · exact Or.inl h
        · exact Or.inr h
    | none =>
      have hstep : (createLoop catId ((cname, lbl) :: rest) g).1 =
          (createLoop catId rest
            { channels := g.channels ++ [newChan catId cname g.nextId],
              nextId := g.nextId + 1 }).1 := by
        simp [createLoop, hf]
      rw [hstep, ih]
      have hm : ∀ c : Channel,
          c ∈ g.channels ++ [newChan catId cname g.nextId] ↔
          (c ∈ g.channels ∨ c = newChan catId cname g.nextId) := by
        intro c; simp [List.mem_append]
      constructor
      · rintro (h | ⟨c, hc, hct, hcn⟩)
        · refine Or.inl ?_
          simp only [List.map_cons, List.mem_cons]
          exact Or.inr h
        · rcases (hm c).mp hc with hc' | rfl
          · exact Or.inr ⟨c, hc', hct, hcn⟩
          · refine Or.inl ?_
            simp only [List.map_cons, List.mem_cons]
            exact Or.inl hcn.symm
      · rintro (h | ⟨c, hc, hct, hcn⟩)
        · simp only [List.map_cons, List.mem_cons] at h
          rcases h with rfl | h
          · refine Or.inr ⟨newChan catId name g.nextId, (hm _).mpr (Or.inr rfl), ?_, rfl⟩
            simp [isTextUnder, newChan]
          · exact Or.inl h
        · exact Or.inr ⟨c, (hm c).mpr (Or.inl hc), hct, hcn⟩

theorem createLoop_creates (catId : Nat) (desired : List (String × String)) :
    ∀ (g : GuildState) (name : String),
      (∃ i, SyncEvent.chanCreate i name ∈ (createLoop catId desired g).2)
      ↔ (name ∈ desired.map Prod.fst ∧
         ¬∃ c ∈ g.channels, channelMatches name catId c = true) := by
  induction desired with
  | nil => intro g name; simp [createLoop]
  | cons p rest ih =>
    obtain ⟨cname, lbl⟩ := p
    intro g name
    cases hf : g.channels.find? (channelMatches cname catId) with
    | some c0 =>
      have hc0mem : c0 ∈ g.channels := List.mem_of_find?_eq_some hf
      have hc0p : channelMatches cname catId c0 = true := List.find?_some hf
      have hstep : (createLoop catId ((cname, lbl) :: rest) g).2 = (createLoop catId rest g).2 := by
        simp [createLoop, hf]
      rw [hstep, ih g name]
      simp only [List.map_cons, List.mem_cons]
      constructor
      · rintro ⟨h, hno⟩
        exact ⟨Or.inr h, hno⟩
      · rintro ⟨h | h, hno⟩
        · exact absurd ⟨c0, hc0mem, h ▸ hc0p⟩ hno
        · exact ⟨h, hno⟩
    | none =>
      have hnone : ∀ c ∈ g.channels, ¬channelMatches cname catId c = true :=
        fun c hc => by simpa using List.find?_eq_none.mp hf c hc
      have hstep : (createLoop catId ((cname, lbl) :: rest) g).2 =
          SyncEvent.chanCreate (newChan catId cname g.nextId).id cname ::
            (createLoop catId rest
              { channels := g.channels ++ [newChan catId cname g.nextId],
                nextId := g.nextId + 1 }).2 := by
        simp [createLoop, hf]
      by_cases hname : name = cname
      · subst hname
        constructor
        · intro _
          refine ⟨by simp, ?_⟩
          rintro ⟨c, hc, hm⟩
          exact hnone c hc hm
        · intro _
          exact ⟨(newChan catId name g.nextId).id, by
            rw [hstep]; exact List.mem_cons_self _ _⟩
      · have hnewc : ¬channelMatches name catId (newChan catId cname g.nextId) = true := by
          simp only [channelMatches_iff]
          rintro ⟨hn, _⟩
          exact hname hn.symm
        constructor
        · rintro ⟨i, hi⟩
          rw [hstep] at hi
          rcases List.mem_cons.mp hi with heq | hi'
          · simp only [SyncEvent.chanCreate.injEq] at heq
            exact absurd heq.2 hname
          · obtain ⟨hmem, hno⟩ := (ih
              { channels := g.channels ++ [newChan catId cname g.nextId],
                nextId := g.nextId + 1 } name).mp ⟨i, hi'⟩
            refine ⟨by simp only [List.map_cons, List.mem_cons]; exact Or.inr hmem, ?_⟩
            rintro ⟨c, hc, hm⟩
            exact hno ⟨c, List.mem_append.mpr (Or.inl hc), hm⟩
        · rintro ⟨hmem, hno⟩
          have hmem' : name ∈ rest.map Prod.fst := by
            simp only [List.map_cons, List.mem_cons] at hmem
            rcases hmem with h | h
            · exact absurd h hname
            · exact h
          have hno' : ¬∃ c ∈ (g.channels ++ [newChan catId cname g.nextId]),
              channelMatches name catId c = true := by
            rintro ⟨c, hc, hm⟩
            rcases List.mem_append.mp hc with hc' | hc'
            · exact hno ⟨c, hc', hm⟩
            · rw [List.mem_singleton.mp hc'] at hm
              exact hnewc hm
          obtain ⟨i, hi⟩ := (ih
              { channels := g.channels ++ [newChan catId cname g.nextId],
                nextId := g.nextId + 1 } name).mpr ⟨hmem', hno'⟩
          exact ⟨i, by rw [hstep]; exact List.mem_cons_of_mem _ hi⟩

theorem createLoop_noop (catId : Nat) (desired : List (String × String)) :
    ∀ g : GuildState,
      (∀ p ∈ desired, ∃ c ∈ g.channels, channelMatches p.1 catId c = true) →
      createLoop catId desired g = (g, []) := by
  induction desired with
  | nil => intro g _; rfl
  | cons p rest ih =>
    obtain ⟨cname, lbl⟩ := p
    intro g hall
    cases hf : g.channels.find? (channelMatches cname catId) with
    | some c0 =>
      simp [createLoop, hf, ih g (fun q hq => hall q (List.mem_cons_of_mem _ hq))]
    | none =>
      obtain ⟨c, hc, hm⟩ := hall (cname, lbl) (List.mem_cons_self _ _)
      exact absurd hm (List.find?_eq_none.mp hf c hc)

theorem textNamesUnder_mem (g : GuildState) (catId : Nat) (name : String) :
    name ∈ textNamesUnder g catId ↔
      ∃ c ∈ g.channels, isTextUnder catId c = true ∧ c.name = name := by
  simp [textNamesUnder, List.mem_map, List.mem_filter, and_assoc]

theorem syncPlanning_names (g : GuildState) (catId : Nat) (today : Nat) (d : Int)
    (hids : (g.channels.map (fun c => c.id)).Nodup) (name : String) :
    (∃ c ∈ (syncPlanning g catId today d).1.channels,
        isTextUnder catId c = true ∧ c.name = name)
      ↔ name ∈ allowedNames today d := by
  have hnodup : (g.channels.filter (isTextUnder catId)).Nodup :=
    (List.Nodup.of_map _ hids).filter _
  have hsub : ∀ c ∈ g.channels.filter (isTextUnder catId), c ∈ g.channels :=
    fun c hc => (List.mem_filter.mp hc).1
  have hdel := deleteLoop_mem (allowedNames today d)
    (g.channels.filter (isTextUnder catId)) g hnodup hsub hids
  have hstate : (syncPlanning g catId today d).1 =
      (createLoop catId (desiredPairs today d)
        (deleteLoop (allowedNames today d)
          (g.channels.filter (isTextUnder catId)) g).1).1 := rfl
  rw [hstate, createLoop_mem_names]
  constructor
  · rintro (h | ⟨c, hc, hct, hcn⟩)
    · exact h
    · obtain ⟨hcg, himp⟩ := (hdel c).mp hc
      have hcs : c ∈ g.channels.filter (isTextUnder catId) :=
        List.mem_filter.mpr ⟨hcg, hct⟩
      exact hcn ▸ himp hcs
  · intro h
    exact Or.inl h

/-- C1: assuming no operation fails, a single `syncPlanning` pass deletes
exactly the text channels under the planning category whose names lie
outside the desired-slug window, creates exactly the desired slugs that
had no matching text channel, and leaves the text-channel names under the
category equal (as a set) to the desired-slug set. -/
theorem syncPlanning_convergence (g : GuildState) (catId : Nat) (today : Nat) (d : Int)
    (hids : (g.channels.map (fun c => c.id)).Nodup) :
    (∀ name, name ∈ textNamesUnder (syncPlanning g catId today d).1 catId ↔
        name ∈ allowedNames today d) ∧
    (∀ i name, SyncEvent.chanDelete i name ∈ (syncPlanning g catId today d).2 ↔
        ∃ c ∈ g.channels, isTextUnder catId c = true ∧ c.id = i ∧ c.name = name ∧
          name ∉ allowedNames today d) ∧
    (∀ name, (∃ i, SyncEvent.chanCreate i name ∈ (syncPlanning g catId today d).2) ↔
        (name ∈ allowedNames today d ∧
         ¬∃ c ∈ g.channels, isTextUnder catId c = true ∧ c.name = name)) := by
  have hnodup : (g.channels.filter (isTextUnder catId)).Nodup :=
    (List.Nodup.of_map _ hids).filter _
  have hsub : ∀ c ∈ g.channels.filter (isTextUnder catId), c ∈ g.channels :=
    fun c hc => (List.mem_filter.mp hc).1
  have hdel := deleteLoop_mem (allowedNames today d)
    (g.channels.filter (isTextUnder catId)) g hnodup hsub hids
  have htrace : (syncPlanning g catId today d).2 =
      (deleteLoop (allowedNames today d) (g.channels.filter (isTextUnder catId)) g).2 ++
      (createLoop catId (desiredPairs today d)
        (deleteLoop (allowedNames today d)
          (g.channels.filter (isTextUnder catId)) g).1).2 := rfl
  refine ⟨?_, ?_, ?_⟩
  · intro name
    rw [textNamesUnder_mem]
    exact syncPlanning_names g catId today d hids name
  · intro i name
    constructor
    · intro hmem
      rw [htrace] at hmem
      rcases List.mem_append.mp hmem with h1 | h2
      · rw [deleteLoop_events] at h1
        obtain ⟨c, hc, heq⟩ := List.mem_map.mp h1
        simp only [SyncEvent.chanDelete.injEq] at heq
        obtain ⟨hcs, hcna⟩ := List.mem_filter.mp hc
        obtain ⟨hcg, hct⟩ := List.mem_filter.mp hcs
        simp only [Bool.not_eq_true'] at hcna
        refine ⟨c, hcg, hct, heq.1, heq.2, ?_⟩
        rw [← heq.2]
        simpa using hcna
      · have := createLoop_creations catId (desiredPairs today d) _ _ h2
        simp [SyncEvent.isCreation] at this
    · rintro ⟨c, hcg, hct, rfl, rfl, hnin⟩
      rw [htrace]
      apply List.mem_append.mpr
      left
      rw [deleteLoop_events]
      apply List.mem_map.mpr
      refine ⟨c, ?_, rfl⟩
      refine List.mem_filter.mpr ⟨List.mem_filter.mpr ⟨hcg, hct⟩, ?_⟩
      simpa using hnin
  · intro name
    have hiff := createLoop_creates catId (desiredPairs today d)
      (deleteLoop (allowedNames today d)
        (g.channels.filter (isTextUnder catId)) g).1 name
    constructor
    · rintro ⟨i, hi⟩
      rw [htrace] at hi
      rcases List.mem_append.mp hi with h1 | h2
      · rw [deleteLoop_events] at h1
        obtain ⟨c, _, heq⟩ := List.mem_map.mp h1
        exact absurd heq (by simp)
      · obtain ⟨hA, hno1⟩ := hiff.mp ⟨i, h2⟩
        refine ⟨hA, ?_⟩
        rintro ⟨c, hcg, hct, hcn⟩
        have hA' : c.name ∈ allowedNames today d := hcn ▸ hA
        have hc1 : c ∈ (deleteLoop (allowedNames today d)
            (g.channels.filter (isTextUnder catId)) g).1.channels :=
          (hdel c).mpr ⟨hcg, fun _ => hA'⟩
        exact hno1 ⟨c, hc1, (channelMatches_iff name catId c).mpr ⟨hcn, hct⟩⟩
    · rintro ⟨hA, hno⟩
      have hno1 : ¬∃ c ∈ (deleteLoop (allowedNames today d)
          (g.channels.filter (isTextUnder catId)) g).1.channels,
          channelMatches name catId c = true := by
        rintro ⟨c, hc1, hm⟩
        obtain ⟨hcn, hct⟩ := (channelMatches_iff name catId c).mp hm
        exact hno ⟨c, ((hdel c).mp hc1).1, hct, hcn⟩
      obtain ⟨i, hi⟩ := hiff.mpr ⟨hA, hno1⟩
      exact ⟨i, by rw [htrace]; exact List.mem_append.mpr (Or.inr hi)⟩

theorem syncPlanning_convergence_witness :
    (demoGuild.channels.map (fun c => c.id)).Nodup ∧
    (∀ name, name ∈ textNamesUnder (syncPlanning demoGuild 1 0 3).1 1 ↔
        name ∈ allowedNames 0 3) :=
  ⟨by decide, (syncPlanning_convergence demoGuild 1 0 3 (by decide)).1⟩

/-- C2: a second `syncPlanning` run over the state produced by a first run
with the same `today` performs no deletion and no creation: the state is
unchanged and the operation trace is empty. -/
theorem syncPlanning_idempotent (g : GuildState) (catId : Nat) (today : Nat) (d : Int)
    (hids : (g.channels.map (fun c => c.id)).Nodup) :
    syncPlanning (syncPlanning g catId today d).1 catId today d =
      ((syncPlanning g catId today d).1, []) := by
  have hnames := syncPlanning_names g catId today d hids
  have hdel2 : deleteLoop (allowedNames today d)
      ((syncPlanning g catId today d).1.channels.filter (isTextUnder catId))
      (syncPlanning g catId today d).1 = ((syncPlanning g catId today d).1, []) := by
    apply deleteLoop_noop
    intro c hc
    obtain ⟨hcg, hct⟩ := List.mem_filter.mp hc
    exact (hnames c.name).mp ⟨c, hcg, hct, rfl⟩
  have hcr2 : createLoop catId (desiredPairs today d) (syncPlanning g catId today d).1 =
      ((syncPlanning g catId today d).1, []) := by
    apply createLoop_noop
    intro p hp
    have hA : p.1 ∈ allowedNames today d := List.mem_map_of_mem Prod.fst hp
    obtain ⟨c, hcg, hct, hcn⟩ := (hnames p.1).mpr hA
    exact ⟨c, hcg, (channelMatches_iff p.1 catId c).mpr ⟨hcn, hct⟩⟩
  show ((createLoop catId (desiredPairs today d)
      (deleteLoop (allowedNames today d)
        ((syncPlanning g catId today d).1.channels.filter (isTextUnder catId))
        (syncPlanning g catId today d).1).1).1, _) = _
  rw [hdel2]
  rw [show (((syncPlanning g catId today d).1, ([] : List SyncEvent))).1 =
    (syncPlanning g catId today d).1 from rfl]
  rw [hcr2]
  rfl

theorem syncPlanning_idempotent_witness :
    (demoGuild.channels.map (fun c => c.id)).Nodup ∧
    syncPlanning (syncPlanning demoGuild 1 0 3).1 1 0 3 =
      ((syncPlanning demoGuild 1 0 3).1, []) :=
  ⟨by decide, syncPlanning_idempotent demoGuild 1 0 3 (by decide)⟩

/-- C5: within one `syncPlanning` run, the operation trace splits into the
deletions followed by the creations: every deletion of the run is issued
before any creation. -/
theorem syncPlanning_deletes_before_creates (g : GuildState) (catId : Nat)
    (today : Nat) (d : Int) :
    ∃ dels crts, (syncPlanning g catId today d).2 = dels ++ crts ∧
      (∀ e ∈ dels, e.isDeletion = true) ∧ (∀ e ∈ crts, e.isCreation = true) :=
  ⟨(deleteLoop (allowedNames today d) (g.channels.filter (isTextUnder catId)) g).2,
   (createLoop catId (desiredPairs today d)
     (deleteLoop (allowedNames today d) (g.channels.filter (isTextUnder catId)) g).1).2,
   rfl,
   deleteLoop_deletions _ _ _,
   createLoop_creations _ _ _⟩

/-- C9: the config loader accepts a negative `PLANNING_DAYS_AHEAD`; with a
zero-or-negative `daysAhead` the desired-name set is empty, so one
reconcile run deletes every text channel under the planning category and
creates nothing. -/
theorem syncPlanning_nonpositive_window (g : GuildState) (catId : Nat) (today : Nat)
    (d : Int) (hd : d ≤ 0) (hids : (g.channels.map (fun c => c.id)).Nodup) :
    parseNumericEnv (some (some d)) 7 = d ∧
    allowedNames today d = [] ∧
    textNamesUnder (syncPlanning g catId today d).1 catId = [] ∧
    (∀ c ∈ g.channels, isTextUnder catId c = true →
       SyncEvent.chanDelete c.id c.name ∈ (syncPlanning g catId today d).2) ∧
    (∀ e ∈ (syncPlanning g catId today d).2, e.isDeletion = true) := by
  have htonat : d.toNat = 0 := Int.toNat_of_nonpos hd
  have hA : allowedNames today d = [] := by
    simp [allowedNames, desiredPairs, planningWindow, htonat]
  have htrace : (syncPlanning g catId today d).2 =
      (deleteLoop (allowedNames today d) (g.channels.filter (isTextUnder catId)) g).2 ++
      (createLoop catId (desiredPairs today d)
        (deleteLoop (allowedNames today d)
          (g.channels.filter (isTextUnder catId)) g).1).2 := rfl
  have hdesired : desiredPairs today d = [] := by
    simp [desiredPairs, planningWindow, htonat]
  refine ⟨rfl, hA, ?_, ?_, ?_⟩
  · apply List.eq_nil_iff_forall_not_mem.mpr
    intro name hname
    have := (textNamesUnder_mem _ catId name).mp hname
    have h2 := (syncPlanning_names g catId today d hids name).mp this
    rw [hA] at h2
    exact List.not_mem_nil name h2
  · intro c hcg hct
    rw [htrace]
    apply List.mem_append.mpr
    left
    rw [deleteLoop_events]
    apply List.mem_map.mpr
    refine ⟨c, ?_, rfl⟩
    refine List.mem_filter.mpr ⟨List.mem_filter.mpr ⟨hcg, hct⟩, ?_⟩
    rw [hA]
    simp
  · intro e he
    rw [htrace] at he
    rcases List.mem_append.mp he with h1 | h2
    · exact deleteLoop_deletions _ _ _ e h1
    · rw [hdesired] at h2
      simp [createLoop] at h2

theorem syncPlanning_nonpositive_window_witness :
    ((-2 : Int) ≤ 0 ∧ (demoGuild.channels.map (fun c => c.id)).Nodup) ∧
    textNamesUnder (syncPlanning demoGuild 1 0 (-2)).1 1 = [] :=
  ⟨⟨by decide, by decide⟩,
   (syncPlanning_nonpositive_window demoGuild 1 0 (-2) (by decide) (by decide)).2.2.1⟩

theorem insertSet_mem (s : List String) (x y : String) :
    y ∈ insertSet s x ↔ (y ∈ s ∨ y = x) := by
  unfold insertSet
  split
  · rename_i h
    constructor
    · exact Or.inl
    · rintro (hy | rfl)
      · exact hy
      · exact h
  · simp [List.mem_append]

theorem insertSet_nodup (s : List String) (x : String) (h : s.Nodup) :
    (insertSet s x).Nodup := by
  unfold insertSet
  split
  · exact h
  · rename_i hx
    simp [List.nodup_append, h, hx]

theorem addReactors_nodup (us : List RUser) :
    ∀ acc : List String, acc.Nodup → (addReactors us acc).Nodup := by
  induction us with
  | nil => intro acc h; exact h
  | cons u rest ih =>
    intro acc h
    by_cases hb : u.bot = true
    · simpa [addReactors, hb] using ih acc h
    · simp only [Bool.not_eq_true] at hb
      simpa [addReactors, hb] using ih _ (insertSet_nodup acc u.id h)

theorem addReactors_mem (us : List RUser) :
    ∀ (acc : List String) (y : String),
      y ∈ addReactors us acc ↔ (y ∈ acc ∨ ∃ u ∈ us, u.bot = false ∧ u.id = y) := by
  induction us with
  | nil => intro acc y; simp [addReactors]
  | cons u rest ih =>
    intro acc y
    by_cases hb : u.bot = true
    · rw [show addReactors (u :: rest) acc = addReactors rest acc by simp [addReactors, hb]]
      rw [ih]
      constructor
      · rintro (h | ⟨v, hv, hvb, hvy⟩)
        · exact Or.inl h
        · exact Or.inr ⟨v, List.mem_cons_of_mem _ hv, hvb, hvy⟩
      · rintro (h | ⟨v, hv, hvb, hvy⟩)
        · exact Or.inl h
        · rcases List.mem_cons.mp hv with rfl | hv'
          · exact absurd hvb (by simp [hb])
          · exact Or.inr ⟨v, hv', hvb, hvy⟩
    · simp only [Bool.not_eq_true] at hb
      rw [show addReactors (u :: rest) acc = addReactors rest (insertSet acc u.id) by
        simp [addReactors, hb]]
      rw [ih, insertSet_mem]
      constructor
      · rintro ((h | rfl) | ⟨v, hv, hvb, hvy⟩)
        · exact Or.inl h
        · exact Or.inr ⟨u, List.mem_cons_self _ _, hb, rfl⟩
        · exact Or.inr ⟨v, List.mem_cons_of_mem _ hv, hvb, hvy⟩
      · rintro (h | ⟨v, hv, hvb, hvy⟩)
        · exact Or.inl (Or.inl h)
        · rcases List.mem_cons.mp hv with rfl | hv'
          · exact Or.inl (Or.inr hvy.symm)
          · exact Or.inr ⟨v, hv', hvb, hvy⟩

theorem collectGo_nodup (messages : List RMessage) (slots : List String) :
    ∀ acc : List String, acc.Nodup → (collectGo messages slots acc).Nodup := by
  induction slots with
  | nil => intro acc h; exact h
  | cons slot rest ih =>
    intro acc h
    cases hs : slotReactors messages slot with
    | none =>
      rw [show collectGo messages (slot :: rest) acc = collectGo messages rest acc by
        simp [collectGo, hs]]
      exact ih acc h
    | some us =>
      rw [show collectGo messages (slot :: rest) acc =
          collectGo messages rest (addReactors us acc) by simp [collectGo, hs]]
      exact ih _ (addReactors_nodup us acc h)

theorem collectGo_mem (messages : List RMessage) (slots : List String) :
    ∀ (acc : List String) (y : String),
      y ∈ collectGo messages slots acc ↔
        (y ∈ acc ∨ ∃ slot ∈ slots, ∃ us, slotReactors messages slot = some us ∧
           ∃ u ∈ us, u.bot = false ∧ u.id = y) := by
  induction slots with
  | nil => intro acc y; simp [collectGo]
  | cons slot rest ih =>
    intro acc y
    cases hs : slotReactors messages slot with
    | none =>
      rw [show collectGo messages (slot :: rest) acc = collectGo messages rest acc by
        simp [collectGo, hs]]
      rw [ih]
      constructor
      · rintro (h | ⟨s, hs', us, husm, hrest⟩)
        · exact Or.inl h
        · exact Or.inr ⟨s, List.mem_cons_of_mem _ hs', us, husm, hrest⟩
      · rintro (h | ⟨s, hs', us, husm, hrest⟩)
        · exact Or.inl h
        · rcases List.mem_cons.mp hs' with rfl | hs''
          · rw [hs] at husm
            exact absurd husm (by simp)
          · exact Or.inr ⟨s, hs'', us, husm, hrest⟩
    | some us0 =>
      rw [show collectGo messages (slot :: rest) acc =
          collectGo messages rest (addReactors us0 acc) by simp [collectGo, hs]]
      rw [ih, addReactors_mem]
      constructor
      · rintro ((h | ⟨u, hu, hub, huy⟩) | ⟨s, hs', us, husm, hrest⟩)
        · exact Or.inl h
        · exact Or.inr ⟨slot, List.mem_cons_self _ _, us0, hs, u, hu, hub, huy⟩
        · exact Or.inr ⟨s, List.mem_cons_of_mem _ hs', us, husm, hrest⟩
      · rintro (h | ⟨s, hs', us, husm, hrest⟩)
        · exact Or.inl (Or.inl h)
        · rcases List.mem_cons.mp hs' with rfl | hs''
          · rw [hs] at husm
            obtain rfl : us0 = us := Option.some_inj.mp husm
            obtain ⟨u, hu, hub, huy⟩ := hrest
            exact Or.inl (Or.inr ⟨u, hu, hub, huy⟩)
          · exact Or.inr ⟨s, hs'', us, husm, hrest⟩

/-- C4: the reminder correlator returns a duplicate-free set of user
identifiers — a user who reacted affirmatively on several relevant slot
messages appears exactly once — and every returned identifier was
contributed by a reactor whose account is not flagged as a bot, so a
bot-flagged account is never included. -/
theorem correlator_dedup_bot_exclusion (channels : List Channel) (categoryName : String)
    (today : Nat) (dayOfWeek : Int) (timeSlots : List String)
    (fetchMessages : Nat → List RMessage) (fetchOk : String → Bool) (ids : List String)
    (h : (getUsersFromPlanning channels categoryName today dayOfWeek timeSlots
            fetchMessages fetchOk).result = Except.ok ids) :
    ids.Nodup ∧
    (∀ uid ∈ ids, ids.count uid = 1) ∧
    (∀ uid ∈ ids, ∃ chId, ∃ slot ∈ timeSlots, ∃ us,
       slotReactors (fetchMessages chId) slot = some us ∧
       ∃ u ∈ us, u.bot = false ∧ u.id = uid) := by
  rcases hf1 : channels.find? (isCategoryNamed categoryName) with _ | cat
  · have hids : ids = [] := by
      simp [getUsersFromPlanning, hf1] at h
      exact h
    subst hids
    exact ⟨List.nodup_nil, fun uid huid => absurd huid (List.not_mem_nil uid),
           fun uid huid => absurd huid (List.not_mem_nil uid)⟩
  · rcases hf2 : channels.find? (channelMatchesUnder cat.id (slugify (dayLabel today)))
      with _ | ch
    · have hids : ids = [] := by
        simp [getUsersFromPlanning, hf1, hf2] at h
        exact h
      subst hids
      exact ⟨List.nodup_nil, fun uid huid => absurd huid (List.not_mem_nil uid),
             fun uid huid => absurd huid (List.not_mem_nil uid)⟩
    · have hids : ids = (collectSlotUsers (fetchMessages ch.id) timeSlots).filter fetchOk := by
        simp [getUsersFromPlanning, hf1, hf2] at h
        exact h.symm
      subst hids
      have hnodup : ((collectSlotUsers (fetchMessages ch.id) timeSlots).filter fetchOk).Nodup :=
        (collectGo_nodup (fetchMessages ch.id) timeSlots [] List.nodup_nil).filter fetchOk
      refine ⟨hnodup, fun uid hu => List.count_eq_one_of_mem hnodup hu, ?_⟩
      intro uid hu
      have hu' : uid ∈ collectGo (fetchMessages ch.id) timeSlots [] :=
        (List.mem_filter.mp hu).1
      rcases (collectGo_mem (fetchMessages ch.id) timeSlots [] uid).mp hu' with h0 | hsl
      · exact absurd h0 (List.not_mem_nil uid)
      · obtain ⟨slot, hslot, us, hus, u, hum, hub, huy⟩ := hsl
        exact ⟨ch.id, slot, hslot, us, hus, u, hum, hub, huy⟩

theorem correlator_dedup_bot_exclusion_witness :
    (getUsersFromPlanning demoChannels "Planning" 0 3 demoSlots
        (fun _ => demoMessages) (fun _ => true)).result = Except.ok ["alice", "bob"] ∧
    (["alice", "bob"] : List String).Nodup :=
  ⟨rfl, (correlator_dedup_bot_exclusion demoChannels "Planning" 0 3 demoSlots
      (fun _ => demoMessages) (fun _ => true) ["alice", "bob"] rfl).1⟩

/-- C6: when the planning category or today's planning channel is absent,
the correlator returns an empty result without raising an exception, and
the not-found condition appears in the logs. -/
theorem correlator_not_found_soft (channels : List Channel) (categoryName : String)
    (today : Nat) (dayOfWeek : Int) (timeSlots : List String)
    (fetchMessages : Nat → List RMessage) (fetchOk : String → Bool) :
    (channels.find? (isCategoryNamed categoryName) = none →
       (getUsersFromPlanning channels categoryName today dayOfWeek timeSlots
          fetchMessages fetchOk).result = Except.ok [] ∧
       ("Catégorie de planning introuvable: " ++ categoryName) ∈
         (getUsersFromPlanning channels categoryName today dayOfWeek timeSlots
            fetchMessages fetchOk).logs) ∧
    (∀ cat, channels.find? (isCategoryNamed categoryName) = some cat →
       channels.find? (channelMatchesUnder cat.id (slugify (dayLabel today))) = none →
       (getUsersFromPlanning channels categoryName today dayOfWeek timeSlots
          fetchMessages fetchOk).result = Except.ok [] ∧
       ("Channel de planning introuvable: " ++ slugify (dayLabel today)) ∈
         (getUsersFromPlanning channels categoryName today dayOfWeek timeSlots
            fetchMessages fetchOk).logs) := by
  constructor
  · intro h1
    simp [getUsersFromPlanning, h1]
  · intro cat h1 h2
    simp [getUsersFromPlanning, h1, h2]

theorem correlator_not_found_soft_witness :
    ([] : List Channel).find? (isCategoryNamed "Planning") = none ∧
    (getUsersFromPlanning [] "Planning" 0 3 demoSlots (fun _ => demoMessages)
        (fun _ => true)).result = Except.ok [] :=
  ⟨rfl, ((correlator_not_found_soft [] "Planning" 0 3 demoSlots (fun _ => demoMessages)
      (fun _ => true)).1 rfl).1⟩

/-- C10: the user set returned by the correlator does not depend on the
reminder rule's `dayOfWeek` argument — the planning channel is always
derived from the current date; `dayOfWeek` only appears in a log line. -/
theorem correlator_ignores_dayOfWeek (channels : List Channel) (categoryName : String)
    (today : Nat) (timeSlots : List String) (fetchMessages : Nat → List RMessage)
    (fetchOk : String → Bool) (d1 d2 : Int) :
    (getUsersFromPlanning channels categoryName today d1 timeSlots
       fetchMessages fetchOk).result =
    (getUsersFromPlanning channels categoryName today d2 timeSlots
       fetchMessages fetchOk).result := by
  simp only [getUsersFromPlanning]
  cases hc : channels.find? (isCategoryNamed categoryName) with
  | none => simp
  | some cat =>
    cases hch : channels.find? (channelMatchesUnder cat.id (slugify (dayLabel today))) with
    | none => simp [hch]
    | some ch => simp [hch]

/-- C7 counterexample: at a concrete tracked state, the TypeScript source's
`refreshStatusMessage` edits the tracked message in place (tracked id and
channel message ids unchanged) while the compiled variant deletes the
tracked message and posts a new one (tracked id advances), so the claim
that the refresh step reposts in both implementations and that the two
are behaviorally equivalent fails. -/
theorem refreshStatus_counterexample :
    refreshStatusMessageSrc demoImages demoStState demoStChannel ≠
      refreshStatusMessageDist demoImages demoStState demoStChannel ∧
    (refreshStatusMessageSrc demoImages demoStState demoStChannel).1.statusMessage = some 5 ∧
    ((refreshStatusMessageSrc demoImages demoStState demoStChannel).2.messages.map
        Prod.fst) = [5] ∧
    (refreshStatusMessageDist demoImages demoStState demoStChannel).1.statusMessage = some 6 ∧
    ((refreshStatusMessageDist demoImages demoStState demoStChannel).2.messages.map
        Prod.fst) = [6] := by
  decide

/-- C7 amended: only the compiled variant of `refreshStatusMessage`
implements the repost behavior — it deletes the tracked status message,
posts a new message with the current rendering, and tracks the new
message — while the TypeScript source edits the tracked message in place,
preserving its identity; the two implementations are not behaviorally
equivalent in this respect. -/
theorem refreshStatusDist_reposts (images : GymStatusV → String) (st : ManagerState)
    (ch : StatusChannel) (mid : Nat) (h : st.statusMessage = some mid) :
    (refreshStatusMessageDist images st ch).1.statusMessage = some ch.nextId ∧
    (refreshStatusMessageDist images st ch).2.messages =
      ch.messages.filter (fun m => !(m.1 == mid)) ++ [(ch.nextId, buildPayload images st)] ∧
    (refreshStatusMessageDist images st ch).2.nextId = ch.nextId + 1 ∧
    (refreshStatusMessageSrc images st ch).1.statusMessage = some mid ∧
    (refreshStatusMessageSrc images st ch).2.messages.map Prod.fst =
      ch.messages.map Prod.fst := by
  refine ⟨?_, ?_, ?_, ?_, ?_⟩
  · simp [refreshStatusMessageDist, h]
  · simp [refreshStatusMessageDist, h]
  · simp [refreshStatusMessageDist, h]
  · simp [refreshStatusMessageSrc, h]
  · simp only [refreshStatusMessageSrc, h]
    rw [List.map_map]
    apply List.map_congr_left
    intro a _
    show (if (a.1 == mid) = true then (a.1, buildPayload images st) else a).1 = a.1
    split <;> rfl

theorem refreshStatusDist_reposts_witness :
    demoStState.statusMessage = some 5 ∧
    (refreshStatusMessageDist demoImages demoStState demoStChannel).1.statusMessage =
      some demoStChannel.nextId :=
  ⟨rfl, (refreshStatusDist_reposts demoImages demoStState demoStChannel 5 rfl).1⟩

theorem findRole_eq_none (roles : List String) (n : String) :
    findRole roles n = none ↔ n ∉ roles := by
  simp only [findRole, List.find?_eq_none, beq_iff_eq]
  constructor
  · intro h hn
    exact h n hn rfl
  · intro h x hx hxn
    exact h (hxn ▸ hx)

/-- C8: `handleAcceptRules` appends to the acceptance log only when the role
grant succeeded; when the configured member role is absent it replies
with the administrator-contact message, grants nothing and logs nothing;
when the grant itself fails the failure is caught, a generic error is
reported and the acceptance is not logged. -/
theorem handleAcceptRules_log_gating (memberRoleName : String) (inp : AcceptInput) :
    ((handleAcceptRules memberRoleName inp).logAppended = true →
       inp.hasGuild = true ∧ memberRoleName ∈ inp.guildRoles ∧
       inp.grantOutcome = GrantOutcome.success ∧
       (handleAcceptRules memberRoleName inp).roleGranted = true) ∧
    (inp.hasGuild = true → memberRoleName ∉ inp.guildRoles →
       (handleAcceptRules memberRoleName inp).reply =
         some ("Le rôle \"" ++ memberRoleName
           ++ "\" est introuvable. Contactez un administrateur.") ∧
       (handleAcceptRules memberRoleName inp).roleGranted = false ∧
       (handleAcceptRules memberRoleName inp).logAppended = false) ∧
    (inp.hasGuild = true → memberRoleName ∈ inp.guildRoles →
       inp.grantOutcome = GrantOutcome.failure →
       (handleAcceptRules memberRoleName inp).reply =
         some "Une erreur est survenue lors de l’ajout du rôle. Contactez un administrateur." ∧
       (handleAcceptRules memberRoleName inp).roleGranted = false ∧
       (handleAcceptRules memberRoleName inp).logAppended = false) := by
  have hmem_of_some : ∀ r, findRole inp.guildRoles memberRoleName = some r →
      memberRoleName ∈ inp.guildRoles := by
    intro r hr
    have h1 := List.find?_some hr
    have h2 := List.mem_of_find?_eq_some hr
    simp only [beq_iff_eq] at h1
    exact h1 ▸ h2
  cases hg : inp.hasGuild with
  | false =>
    have hred : handleAcceptRules memberRoleName inp =
        { reply := some "Impossible de déterminer la guilde pour appliquer le rôle.",
          roleGranted := false, logAppended := false } := by
      simp [handleAcceptRules, hg]
    refine ⟨?_, ?_, ?_⟩
    · intro hlog
      rw [hred] at hlog
      exact absurd hlog (by simp)
    · intro h
      exact absurd h (by simp [hg])
    · intro h
      exact absurd h (by simp [hg])
  | true =>
    cases hf : findRole inp.guildRoles memberRoleName with
    | none =>
      have hnm := (findRole_eq_none inp.guildRoles memberRoleName).mp hf
      have hred : handleAcceptRules memberRoleName inp =
          { reply := some ("Le rôle \"" ++ memberRoleName
              ++ "\" est introuvable. Contactez un administrateur."),
            roleGranted := false, logAppended := false } := by
        simp [handleAcceptRules, hg, hf]
      refine ⟨?_, ?_, ?_⟩
      · intro hlog
        rw [hred] at hlog
        exact absurd hlog (by simp)
      · intro _ _
        rw [hred]
        exact ⟨rfl, rfl, rfl⟩
      · intro _ hmem _
        exact absurd hmem hnm
    | some role =>
      have hmem := hmem_of_some role hf
      cases hgo : inp.grantOutcome with
      | failure =>
        have hred : handleAcceptRules memberRoleName inp =
            { reply := some
                "Une erreur est survenue lors de l’ajout du rôle. Contactez un administrateur.",
              roleGranted := false, logAppended := false } := by
          simp [handleAcceptRules, hg, hf, hgo]
        refine ⟨?_, ?_, ?_⟩
        · intro hlog
          rw [hred] at hlog
          exact absurd hlog (by simp)
        · intro _ hnm
          exact absurd hmem hnm
        · intro _ _ _
          rw [hred]
          exact ⟨rfl, rfl, rfl⟩
      | success =>
        have hred : handleAcceptRules memberRoleName inp =
            { reply := some ("Merci, " ++ inp.username
                ++ ", vous avez accepté le règlement et obtenu le rôle **" ++ role ++ "**."),
              roleGranted := true, logAppended := true } := by
          simp [handleAcceptRules, hg, hf, hgo]
        refine ⟨?_, ?_, ?_⟩
        · intro _
          rw [hred]
          exact ⟨rfl, hmem, rfl, rfl⟩
        · intro _ hnm
          exact absurd hmem hnm
        · intro _ _ hfail
          exact absurd hfail (by simp)

theorem handleAcceptRules_log_gating_witness :
    (true = true ∧ "Membre" ∉ (["Admin"] : List String)) ∧
    (handleAcceptRules "Membre"
       { hasGuild := true, guildRoles := ["Admin"], username := "alice",
         grantOutcome := GrantOutcome.success }).logAppended = false :=
  ⟨⟨rfl, by decide⟩,
   ((handleAcceptRules_log_gating "Membre"
       { hasGuild := true, guildRoles := ["Admin"], username := "alice",
         grantOutcome := GrantOutcome.success }).2.1 rfl (by decide)).2.2⟩

end GymBot
